import Mathlib

/-!
Shallow embedding of the linguis document viewer core
(src/views/document_viewer.py, src/views/main_window.py,
src/viewmodels/document_viewmodel.py, src/viewmodels/selection_viewmodel.py,
src/models/selection/selection_model.py) together with proofs about the
render-window computation, the LRU page cache, render-failure handling,
zoom anchoring, word selection, hyphen merging, selection highlights and
text-range extraction.

Modelling conventions:
* Python ints are `ℤ` (or `ℕ` where the source value is a page index that
  is non-negative by construction); Python `max(0, a - k)` on such an index
  coincides with truncated subtraction on `ℕ`.
* `QRectF` float coordinates are modelled as `ℚ`; Python float arithmetic
  on the small integral inputs used in the claims is exact, and `int(x)`
  is truncation toward zero (`pyTrunc`).
* Qt signal emissions are returned as explicit lists of emitted payloads.
* A Python `dict[int, T]` whose keys are exactly `0 .. total-1` is modelled
  as a total function `ℕ → T` plus the bound `totalPages`; every use site
  keeps the source's `in` guard as an `i < totalPages` test.
-/

namespace Linguis

/-- A `QRectF` given by origin and size, in document units. -/
structure RectQ where
  x : ℚ
  y : ℚ
  w : ℚ
  h : ℚ
deriving DecidableEq

/-- `QRectF.left()`. -/
def RectQ.left (r : RectQ) : ℚ := r.x

/-- `QRectF.right()` is `x + width`. -/
def RectQ.right (r : RectQ) : ℚ := r.x + r.w

/-- `QRectF.top()`. -/
def RectQ.top (r : RectQ) : ℚ := r.y

/-- The part of `TextOverlay` state the claims touch: the highlight
rectangles set by `set_highlight_rects`. -/
structure TextOverlay where
  highlightRects : List RectQ
deriving DecidableEq

/-- `TextOverlay.set_highlight_rects`. -/
def TextOverlay.setHighlightRects (_o : TextOverlay) (rects : List RectQ) : TextOverlay :=
  { highlightRects := rects }

/-- State of one `PageWidget` (document_viewer.py).  The image buffer is
tracked through `isLoaded`; its pixel contents are irrelevant to the claims. -/
structure PageWidget where
  isLoaded : Bool
  isRendering : Bool
  renderZoom : ℤ
  displayZoom : ℤ
  overlay : TextOverlay
deriving DecidableEq

/-- `PageWidget.__init__`: unloaded, not rendering, both zooms 100. -/
def PageWidget.init : PageWidget :=
  { isLoaded := false, isRendering := false, renderZoom := 100, displayZoom := 100
    overlay := { highlightRects := [] } }

/-- `PageWidget.set_image`. -/
def PageWidget.setImage (p : PageWidget) (renderZoom : ℤ) : PageWidget :=
  { p with isLoaded := true, isRendering := false, renderZoom := renderZoom }

/-- `PageWidget.unload_image`. -/
def PageWidget.unloadImage (p : PageWidget) : PageWidget :=
  { p with isLoaded := false, isRendering := false, renderZoom := 100 }

/-- `PageWidget.mark_rendering`. -/
def PageWidget.markRendering (p : PageWidget) : PageWidget :=
  { p with isRendering := true }

/-- `PageWidget.needs_rerender`:
`self._is_loaded and abs(self._display_zoom - self._render_zoom) > 5`. -/
def PageWidget.needsRerender (p : PageWidget) : Bool :=
  p.isLoaded && decide ((p.displayZoom - p.renderZoom).natAbs > 5)

/-- State of `DocumentViewer`.  `loadedPages` is the key order of the
`OrderedDict`, head = least recently used. -/
structure DocumentViewer where
  totalPages : ℕ
  pages : ℕ → PageWidget
  loadedPages : List ℕ
  currentRenderRange : List ℕ
  displayZoom : ℤ
  committedZoom : ℤ

/-- `DocumentViewer.LOOKAHEAD_PAGES`. -/
def DocumentViewer.LOOKAHEAD_PAGES : ℕ := 3

/-- `DocumentViewer.MAX_CACHED_PAGES`. -/
def DocumentViewer.MAX_CACHED_PAGES : ℕ := 12

/-- `DocumentViewer.__init__`. -/
def initialViewer : DocumentViewer :=
  { totalPages := 0, pages := fun _ => PageWidget.init, loadedPages := []
    currentRenderRange := [], displayZoom := 100, committedZoom := 100 }

/-- Point update of the page table (`self._pages[i] = ...` effects). -/
def updatePage (f : ℕ → PageWidget) (i : ℕ) (g : PageWidget → PageWidget) :
    ℕ → PageWidget :=
  fun j => if j = i then g (f j) else f j

/-- `DocumentViewer.load_document_layout`: fresh `PageWidget` per size entry,
cleared `_pages` and `_loaded_pages`. -/
def DocumentViewer.loadDocumentLayout (v : DocumentViewer)
    (pageSizes : List (ℕ × ℕ)) : DocumentViewer :=
  { v with totalPages := pageSizes.length, pages := fun _ => PageWidget.init
           loadedPages := [] }

/-- The `while len(self._loaded_pages) > MAX_CACHED_PAGES` loop of
`DocumentViewer._evict_old_pages`: pop the head (oldest entry) and unload
its widget while the count exceeds the capacity. -/
def evictLoop (total : ℕ) :
    List ℕ → (ℕ → PageWidget) → List ℕ × (ℕ → PageWidget)
  | [], pgs => ([], pgs)
  | i :: rest, pgs =>
    if rest.length + 1 > DocumentViewer.MAX_CACHED_PAGES then
      evictLoop total rest
        (if i < total then updatePage pgs i PageWidget.unloadImage else pgs)
    else (i :: rest, pgs)

/-- `DocumentViewer._evict_old_pages`. -/
def DocumentViewer.evictOldPages (v : DocumentViewer) : DocumentViewer :=
  let r := evictLoop v.totalPages v.loadedPages v.pages
  { v with loadedPages := r.1, pages := r.2 }

/-- `DocumentViewer.update_page_image`: guard on key presence, `set_image`,
move-to-end / insert into the `OrderedDict`, discard from the render range,
then evict. -/
def DocumentViewer.updatePageImage (v : DocumentViewer) (i : ℕ)
    (renderZoom : ℤ) : DocumentViewer :=
  if i < v.totalPages then
    let pgs := updatePage v.pages i (PageWidget.setImage · renderZoom)
    let lp :=
      if i ∈ v.loadedPages then v.loadedPages.erase i ++ [i]
      else v.loadedPages ++ [i]
    DocumentViewer.evictOldPages
      { v with pages := pgs, loadedPages := lp
               currentRenderRange := v.currentRenderRange.erase i }
  else v

/-- Sort key used by `_check_visibility`: `abs(idx - viewport_center)` with
`viewport_center = (min_visible + max_visible) / 2`.  Scaled by 2 to stay in
`ℕ`; the scaling is strictly monotone so the induced order is unchanged. -/
def viewportDistKey (a b i : ℕ) : ℕ := (2 * (i : ℤ) - ((a : ℤ) + (b : ℤ))).natAbs

/-- One step of Python's stable `list.sort(key=...)` (ties keep list order):
insert `x` before the first element whose key is strictly larger. -/
def insertByKey (key : ℕ → ℕ) (x : ℕ) : List ℕ → List ℕ
  | [] => [x]
  | y :: rest =>
    if key x ≤ key y then x :: y :: rest else y :: insertByKey key x rest

/-- Stable insertion sort by key, modelling Python's `list.sort(key=...)`. -/
def sortByKey (key : ℕ → ℕ) : List ℕ → List ℕ
  | [] => []
  | x :: rest => insertByKey key x (sortByKey key rest)

/-- `DocumentViewer._check_visibility`.  The geometric visibility test
(Qt widget geometry against the viewport rectangle) is abstracted into the
`visibleIndices` argument; everything after the `visible_indices`
computation follows the source line by line.  Returns the new state and the
list of `request_page_render` emissions `(index, committedZoom)`.
CPython iterates this set of small contiguous ints in increasing order,
which is how `newRenderRange` is materialised. -/
def DocumentViewer.checkVisibility (v : DocumentViewer)
    (visibleIndices : List ℕ) : DocumentViewer × List (ℕ × ℤ) :=
  match visibleIndices with
  | [] => (v, [])
  | i0 :: rest =>
    let minVisible := rest.foldl min i0
    let maxVisible := rest.foldl max i0
    let renderStart := minVisible - DocumentViewer.LOOKAHEAD_PAGES
    let renderEnd :=
      min (v.totalPages - 1) (maxVisible + DocumentViewer.LOOKAHEAD_PAGES)
    let newRenderRange := List.range' renderStart (renderEnd + 1 - renderStart)
    let pagesToRequest := newRenderRange.filter fun idx =>
      let p := v.pages idx
      (!p.isLoaded && !p.isRendering) || p.needsRerender
    let pgs := pagesToRequest.foldl
      (fun f idx => updatePage f idx PageWidget.markRendering) v.pages
    let sortedRequests :=
      sortByKey (viewportDistKey minVisible maxVisible) pagesToRequest
    ({ v with pages := pgs, currentRenderRange := newRenderRange },
     sortedRequests.map fun idx => (idx, v.committedZoom))

/-- Repeated `update_page_image` calls (all at the same render zoom),
one per page index in the given order. -/
def loadSequentially (v : DocumentViewer) (l : List ℕ) : DocumentViewer :=
  l.foldl (fun w i => w.updatePageImage i 100) v

/-- `DocumentViewer.set_selection_highlights`: clear every page's overlay
rectangles, then set them on the given page if that key exists. -/
def DocumentViewer.setSelectionHighlights (v : DocumentViewer) (pageIndex : ℕ)
    (rects : List RectQ) : DocumentViewer :=
  let cleared := fun j =>
    if j < v.totalPages then
      { v.pages j with overlay := (v.pages j).overlay.setHighlightRects [] }
    else v.pages j
  let pgs :=
    if pageIndex < v.totalPages then
      updatePage cleared pageIndex
        (fun p => { p with overlay := p.overlay.setHighlightRects rects })
    else cleared
  { v with pages := pgs }

/-- `DocumentViewModel._render_page_internal`, after the backend call has
produced either an image or an error: on success emit
`page_rendered(index, image, zoom)`, on failure emit nothing and log a
warning.  Returns (page_rendered emissions, log lines). -/
def renderPageInternal (result : Except String ℕ) (pageIndex : ℕ)
    (zoomLevel : ℤ) : List (ℕ × ℕ × ℤ) × List String :=
  match result with
  | Except.ok image => ([(pageIndex, image, zoomLevel)], [])
  | Except.error _ => ([], ["Failed to render page"])

/-- Python `int(x)` applied to an exact value: truncation toward zero. -/
def pyTrunc (q : ℚ) : ℤ := if 0 ≤ q then Int.floor q else Int.ceil q

/-- `ZoomViewModel.MIN_ZOOM`. -/
def ZoomViewModel.MIN_ZOOM : ℤ := 50

/-- `ZoomViewModel.MAX_ZOOM`. -/
def ZoomViewModel.MAX_ZOOM : ℤ := 400

/-- `MainWindow._handle_scroll_zoom` (main_window.py): cursor-anchored zoom.
Inputs are the current scroll value, the cursor's y offset in the viewport,
the zoom view-model's current level, and the wheel event's `angleDelta().y()`.
Returns the new (clamped) zoom level and, when `old_zoom > 0`, the scroll
value reasserted one tick later. -/
def MainWindow.handleScrollZoom (oldScroll cursorY oldZoom delta : ℤ) :
    ℤ × Option ℤ :=
  let docYBefore : ℤ := oldScroll + cursorY
  let newZoomRaw : ℤ := pyTrunc ((oldZoom : ℚ) + ((delta : ℚ) / 120) * 10)
  let newZoom : ℤ :=
    max ZoomViewModel.MIN_ZOOM (min ZoomViewModel.MAX_ZOOM newZoomRaw)
  if 0 < oldZoom then
    let newScroll : ℤ :=
      pyTrunc ((docYBefore : ℚ) * ((newZoom : ℚ) / (oldZoom : ℚ)) - (cursorY : ℚ))
    (newZoom, some newScroll)
  else (newZoom, none)

/-- `CharMetadata` (selection_model.py): one character and its bounding box. -/
structure CharMetadata where
  char : Char
  bbox : RectQ
deriving DecidableEq

/-- Default used only to express Python's in-bounds list indexing. -/
def charDefault : CharMetadata := { char := ' ', bbox := { x := 0, y := 0, w := 0, h := 0 } }

/-- Python list slicing `l[a:b]` (step 1): negative bounds count from the
end of the list, then the window is clipped to the list. -/
def pySlice {α : Type} (l : List α) (a b : ℤ) : List α :=
  let n : ℤ := l.length
  let a2 : ℤ := if a < 0 then max 0 (n + a) else min a n
  let b2 : ℤ := if b < 0 then max 0 (n + b) else min b n
  (l.take b2.toNat).drop a2.toNat

/-- `SelectionModel.get_text_range`: swap an inverted pair, clamp, then take
the Python slice `characters[start : end + 1]` and join the characters. -/
def SelectionModel.getTextRange (characters : List CharMetadata)
    (startIdx endIdx : ℤ) : List Char :=
  let p := if startIdx > endIdx then (endIdx, startIdx) else (startIdx, endIdx)
  let s : ℤ := max 0 p.1
  let e : ℤ := min ((characters.length : ℤ) - 1) p.2
  (pySlice characters s (e + 1)).map (·.char)

/-- The text-range semantics as the claim words it: after the same swap and
clamp, the concatenation of the characters whose index lies in the clamped
inclusive range, empty when that range is empty. -/
def getTextRangeClaim (characters : List CharMetadata)
    (startIdx endIdx : ℤ) : List Char :=
  let p := if startIdx > endIdx then (endIdx, startIdx) else (startIdx, endIdx)
  let s : ℤ := max 0 p.1
  let e : ℤ := min ((characters.length : ℤ) - 1) p.2
  if s ≤ e then ((characters.take (e.toNat + 1)).drop s.toNat).map (·.char)
  else []

/-- `is_word_char` from `SelectionViewModel.select_word_at`:
`c.isalnum() or c in "_-'"` (39 is the apostrophe code point). -/
def isWordChar (c : Char) : Bool :=
  c.isAlphanum || c == '_' || c == '-' || c.toNat == 39

/-- `SPACE_THRESHOLD` in `select_word_at`. -/
def SPACE_THRESHOLD : ℚ := 4

/-- `LINE_THRESHOLD` in `select_word_at`. -/
def LINE_THRESHOLD : ℚ := 5

/-- The `while start > 0` loop of `select_word_at`: step left while the left
neighbour (`prev = chars[start-1]`) is a word character and the horizontal
gap `curr.left - prev.right` and vertical gap `|curr.top - prev.top|`
(the source's `gap` and `v_gap` locals, inlined here) stay within the
thresholds. -/
def expandLeft (chars : List CharMetadata) : ℕ → ℕ
  | 0 => 0
  | s + 1 =>
    if isWordChar ((chars.getD s charDefault).char) = false ∨
        (chars.getD (s + 1) charDefault).bbox.left -
          (chars.getD s charDefault).bbox.right > SPACE_THRESHOLD ∨
        |(chars.getD (s + 1) charDefault).bbox.top -
          (chars.getD s charDefault).bbox.top| > LINE_THRESHOLD
    then s + 1
    else expandLeft chars s

/-- The `while end < len(chars) - 1` loop of `select_word_at`, with the
source's `gap` and `v_gap` locals inlined. -/
def expandRight (chars : List CharMetadata) (e : ℕ) : ℕ :=
  if e + 1 < chars.length then
    if isWordChar ((chars.getD (e + 1) charDefault).char) = false ∨
        (chars.getD (e + 1) charDefault).bbox.left -
          (chars.getD e charDefault).bbox.right > SPACE_THRESHOLD ∨
        |(chars.getD (e + 1) charDefault).bbox.top -
          (chars.getD e charDefault).bbox.top| > LINE_THRESHOLD
    then e
    else expandRight chars (e + 1)
  else e
termination_by chars.length - e
decreasing_by simp_wf; omega

/-- The regex character class `[a-zA-Z]` of `merge_hyphens`. -/
def isRegexAlpha (c : Char) : Bool :=
  (decide ('a' ≤ c) && decide (c ≤ 'z')) || (decide ('A' ≤ c) && decide (c ≤ 'Z'))

/-- `SelectionViewModel.merge_hyphens`:
`re.sub(r"-\x5cn([a-zA-Z])", r"\x5c1", text)` — a hyphen immediately
followed by a newline and an ASCII letter collapses to the letter; matches
are found left to right and scanning resumes after each match. -/
def mergeHyphens : List Char → List Char
  | [] => []
  | [a] => [a]
  | [a, b] => [a, b]
  | a :: b :: c :: rest =>
    if a = '-' ∧ b = '\n' ∧ isRegexAlpha c = true then c :: mergeHyphens rest
    else a :: mergeHyphens (b :: c :: rest)

/-- State of `SelectionViewModel`.  Page models are keyed by page index;
only the character list of each `SelectionModel` matters here. -/
structure SelectionViewModel where
  pageModels : ℕ → Option (List CharMetadata)
  activePage : Option ℕ
  startIdx : Option ℤ
  endIdx : Option ℤ

/-- `SelectionViewModel.start_selection`. -/
def SelectionViewModel.startSelection (vm : SelectionViewModel) (pageIndex : ℕ)
    (charIndex : ℤ) : SelectionViewModel :=
  { vm with activePage := some pageIndex, startIdx := some charIndex
            endIdx := some charIndex }

/-- `SelectionViewModel._emit_current_selection`: the list of
`selection_changed` payloads (state is not mutated by the source method). -/
def SelectionViewModel.emitCurrentSelection (vm : SelectionViewModel) :
    List (List Char) :=
  match vm.activePage, vm.startIdx, vm.endIdx with
  | some p, some s, some e =>
    match vm.pageModels p with
    | some chars => [mergeHyphens (SelectionModel.getTextRange chars s e)]
    | none => []
  | _, _, _ => []

/-- `SelectionViewModel.update_selection`. -/
def SelectionViewModel.updateSelection (vm : SelectionViewModel)
    (charIndex : ℤ) : SelectionViewModel × List (List Char) :=
  match vm.startIdx with
  | some _ =>
    let vm2 := { vm with endIdx := some charIndex }
    (vm2, vm2.emitCurrentSelection)
  | none => (vm, [])

/-- `SelectionViewModel.select_word_at`: guard on a registered model and an
in-range index, treat a non-word character as a single-glyph selection,
otherwise expand left and right and select `[start, end]`. -/
def SelectionViewModel.selectWordAt (vm : SelectionViewModel) (pageIndex : ℕ)
    (charIndex : ℤ) : SelectionViewModel × List (List Char) :=
  match vm.pageModels pageIndex with
  | none => (vm, [])
  | some chars =>
    if 0 ≤ charIndex ∧ charIndex < (chars.length : ℤ) then
      let k := charIndex.toNat
      if isWordChar (chars.getD k charDefault).char = false then
        (vm.startSelection pageIndex charIndex).updateSelection charIndex
      else
        let s := expandLeft chars k
        let e := expandRight chars k
        (vm.startSelection pageIndex (s : ℤ)).updateSelection (e : ℤ)
    else (vm, [])

/-- Holds between positions `j` and `j + 1` when the left-expansion loop may
cross that boundary: the left glyph is a word character and the gaps are
within the thresholds. -/
def leftLinked (chars : List CharMetadata) (j : ℕ) : Prop :=
  isWordChar ((chars.getD j charDefault).char) = true ∧
  (chars.getD (j + 1) charDefault).bbox.left -
      (chars.getD j charDefault).bbox.right ≤ SPACE_THRESHOLD ∧
  |(chars.getD (j + 1) charDefault).bbox.top -
      (chars.getD j charDefault).bbox.top| ≤ LINE_THRESHOLD

/-- Holds between positions `j` and `j + 1` when the right-expansion loop may
cross that boundary: the right glyph is a word character and the gaps are
within the thresholds. -/
def rightLinked (chars : List CharMetadata) (j : ℕ) : Prop :=
  isWordChar ((chars.getD (j + 1) charDefault).char) = true ∧
  (chars.getD (j + 1) charDefault).bbox.left -
      (chars.getD j charDefault).bbox.right ≤ SPACE_THRESHOLD ∧
  |(chars.getD (j + 1) charDefault).bbox.top -
      (chars.getD j charDefault).bbox.top| ≤ LINE_THRESHOLD

/-- Glyphs spelling "cat dog": unit boxes on one line, a 6-unit horizontal
gap between the words (each box is 1 wide, `t` ends at x = 3, `d` starts at
x = 9). -/
def catDogChars : List CharMetadata :=
  [ { char := 'c', bbox := { x := 0, y := 0, w := 1, h := 1 } },
    { char := 'a', bbox := { x := 1, y := 0, w := 1, h := 1 } },
    { char := 't', bbox := { x := 2, y := 0, w := 1, h := 1 } },
    { char := 'd', bbox := { x := 9, y := 0, w := 1, h := 1 } },
    { char := 'o', bbox := { x := 10, y := 0, w := 1, h := 1 } },
    { char := 'g', bbox := { x := 11, y := 0, w := 1, h := 1 } } ]

/-- A selection view-model whose only registered page model is "cat dog". -/
def catDogVM : SelectionViewModel :=
  { pageModels := fun p => if p = 0 then some catDogChars else none
    activePage := none, startIdx := none, endIdx := none }

/-- Three characters `a`, `b`, `c` with arbitrary unit boxes. -/
def abcChars : List CharMetadata :=
  [ { char := 'a', bbox := { x := 0, y := 0, w := 1, h := 1 } },
    { char := 'b', bbox := { x := 1, y := 0, w := 1, h := 1 } },
    { char := 'c', bbox := { x := 2, y := 0, w := 1, h := 1 } } ]

/-! ## Theorems -/

theorem foldl_min_le_init (l : List ℕ) (x : ℕ) : l.foldl min x ≤ x := by
  induction l generalizing x with
  | nil => exact le_refl x
  | cons h t ih =>
    calc (h :: t).foldl min x = t.foldl min (min x h) := rfl
    _ ≤ min x h := ih _
    _ ≤ x := min_le_left _ _

theorem init_le_foldl_max (l : List ℕ) (x : ℕ) : x ≤ l.foldl max x := by
  induction l generalizing x with
  | nil => exact le_refl x
  | cons h t ih =>
    calc x ≤ max x h := le_max_left _ _
    _ ≤ t.foldl max (max x h) := ih _
    _ = (h :: t).foldl max x := rfl

/-- Claim C1: for a non-empty visible page range `[a, b]`, lookahead 3 and
page count `N`, the render window computed by `_check_visibility` is exactly
the inclusive index range `[max 0 (a - 3), min (N - 1) (b + 3)]`. -/
theorem checkVisibility_render_window (v : DocumentViewer) (i0 : ℕ)
    (rest : List ℕ) (a b : ℕ) (ha : a = rest.foldl min i0)
    (hb : b = rest.foldl max i0) (hbN : b < v.totalPages) :
    ∀ i : ℕ, i ∈ (v.checkVisibility (i0 :: rest)).1.currentRenderRange ↔
      (max 0 ((a : ℤ) - 3) ≤ (i : ℤ) ∧
        (i : ℤ) ≤ min ((v.totalPages : ℤ) - 1) ((b : ℤ) + 3)) := by
  intro i
  have hab : a ≤ b := by
    rw [ha, hb]
    exact le_trans (foldl_min_le_init rest i0) (init_le_foldl_max rest i0)
  simp only [DocumentViewer.checkVisibility, DocumentViewer.LOOKAHEAD_PAGES,
    ← ha, ← hb, List.mem_range'_1]
  omega

/-- Witness for C1: a 10-page document with pages 2 and 3 visible, the
window membership test evaluated at page index 6. -/
theorem checkVisibility_render_window_witness :
    6 ∈ ((initialViewer.loadDocumentLayout
            (List.replicate 10 (612, 792))).checkVisibility
          [2, 3]).1.currentRenderRange ↔
      (max 0 ((2 : ℤ) - 3) ≤ ((6 : ℕ) : ℤ) ∧
        ((6 : ℕ) : ℤ) ≤ min (((initialViewer.loadDocumentLayout
            (List.replicate 10 (612, 792))).totalPages : ℤ) - 1) ((3 : ℤ) + 3)) :=
  checkVisibility_render_window _ 2 [3] 2 3 (by decide) (by decide) (by decide) 6

/-- Claim C3 (divergence witness): with one page, `_check_visibility` marks
the page rendering and requests it; a backend failure in
`_render_page_internal` emits no `page_rendered` (so `update_page_image`
never runs) and only logs; the page widget is then stuck with
`_is_rendering = True` while unloaded, and the next `_check_visibility` over
the same window issues no request at all — the page is never retried,
contradicting the specified failure semantics. -/
theorem render_failure_leaves_page_stuck :
    ((initialViewer.loadDocumentLayout [(612, 792)]).checkVisibility [0]).2 =
        [(0, 100)] ∧
    (renderPageInternal (Except.error "backend error") 0 100).1 = [] ∧
    (renderPageInternal (Except.error "backend error") 0 100).2 =
        ["Failed to render page"] ∧
    (((initialViewer.loadDocumentLayout [(612, 792)]).checkVisibility
        [0]).1.pages 0).isLoaded = false ∧
    (((initialViewer.loadDocumentLayout [(612, 792)]).checkVisibility
        [0]).1.pages 0).isRendering = true ∧
    ((((initialViewer.loadDocumentLayout [(612, 792)]).checkVisibility
        [0]).1).checkVisibility [0]).2 = [] := by
  decide

/-- Counterexample to claim C4: a page loaded at zoom 100 while the display
zoom is 106 (`needs_rerender` true) is requested by `_check_visibility` and
requested again by an immediately following second call — the second call
does not issue zero requests. -/
theorem checkVisibility_not_idempotent_stale :
    (({ totalPages := 1
        pages := fun _ =>
          { isLoaded := true, isRendering := false, renderZoom := 100
            displayZoom := 106, overlay := { highlightRects := [] } }
        loadedPages := [0], currentRenderRange := [0]
        displayZoom := 106, committedZoom := 106 } :
          DocumentViewer).checkVisibility [0]).2 = [(0, 106)] ∧
    ((({ totalPages := 1
         pages := fun _ =>
           { isLoaded := true, isRendering := false, renderZoom := 100
             displayZoom := 106, overlay := { highlightRects := [] } }
         loadedPages := [0], currentRenderRange := [0]
         displayZoom := 106, committedZoom := 106 } :
           DocumentViewer).checkVisibility [0]).1.checkVisibility [0]).2 =
      [(0, 106)] := by
  decide

/-- Claim C5: for a loaded page, `needs_rerender` is false exactly when the
rendered and display zooms differ by at most 5 and true exactly when they
differ by more than 5; in particular rendered 100 / display 105 gives false
and rendered 100 / display 106 gives true. -/
theorem needsRerender_tolerance :
    (∀ p : PageWidget, p.isLoaded = true →
      ((p.needsRerender = false ↔ (p.renderZoom - p.displayZoom).natAbs ≤ 5) ∧
       (p.needsRerender = true ↔ 5 < (p.renderZoom - p.displayZoom).natAbs))) ∧
    PageWidget.needsRerender
      { PageWidget.init with isLoaded := true, renderZoom := 100
                             displayZoom := 105 } = false ∧
    PageWidget.needsRerender
      { PageWidget.init with isLoaded := true, renderZoom := 100
                             displayZoom := 106 } = true := by
  refine ⟨fun p h => ?_, by decide, by decide⟩
  have habs : (p.displayZoom - p.renderZoom).natAbs =
      (p.renderZoom - p.displayZoom).natAbs := by omega
  simp only [PageWidget.needsRerender, h, Bool.true_and, habs,
    decide_eq_false_iff_not, decide_eq_true_eq]
  exact ⟨not_lt, trivial⟩

/-- Witness for C5 at a concrete loaded page (rendered 100, display 106). -/
theorem needsRerender_tolerance_witness :
    (PageWidget.needsRerender
        { PageWidget.init with isLoaded := true, renderZoom := 100
                               displayZoom := 106 } = false ↔
      ((100 : ℤ) - 106).natAbs ≤ 5) ∧
    (PageWidget.needsRerender
        { PageWidget.init with isLoaded := true, renderZoom := 100
                               displayZoom := 106 } = true ↔
      5 < ((100 : ℤ) - 106).natAbs) :=
  needsRerender_tolerance.1
    { PageWidget.init with isLoaded := true, renderZoom := 100
                           displayZoom := 106 } rfl

/-- Claim C9: `set_selection_highlights` clears every page's highlight
rectangles and then sets rectangles only on the given page (if it exists);
afterwards at most one page has a non-empty highlight list. -/
theorem setSelectionHighlights_single_page (v : DocumentViewer)
    (pageIndex : ℕ) (rects : List RectQ) :
    (∀ j, j < v.totalPages → j ≠ pageIndex →
      ((v.setSelectionHighlights pageIndex rects).pages j).overlay.highlightRects
        = []) ∧
    (pageIndex < v.totalPages →
      ((v.setSelectionHighlights pageIndex
          rects).pages pageIndex).overlay.highlightRects = rects) ∧
    (∀ j k, j < v.totalPages → k < v.totalPages → j ≠ k →
      ((v.setSelectionHighlights pageIndex rects).pages j).overlay.highlightRects
        ≠ [] →
      ((v.setSelectionHighlights pageIndex rects).pages k).overlay.highlightRects
        = []) := by
  have h1 : ∀ j, j < v.totalPages → j ≠ pageIndex →
      ((v.setSelectionHighlights pageIndex rects).pages j).overlay.highlightRects
        = [] := by
    intro j hj hne
    simp only [DocumentViewer.setSelectionHighlights, updatePage,
      TextOverlay.setHighlightRects]
    by_cases hp : pageIndex < v.totalPages
    · simp [updatePage, hp, hne, hj]
    · simp [updatePage, hp, hj]
  have h2 : pageIndex < v.totalPages →
      ((v.setSelectionHighlights pageIndex
          rects).pages pageIndex).overlay.highlightRects = rects := by
    intro hp
    simp [DocumentViewer.setSelectionHighlights, updatePage,
      TextOverlay.setHighlightRects, hp]
  refine ⟨h1, h2, fun j k hj hk hjk hne => ?_⟩
  rcases eq_or_ne j pageIndex with rfl | hjp
  · exact h1 k hk (fun hkp => hjk hkp.symm)
  · exact absurd (h1 j hj hjp) hne

/-- Witness for C9: a 3-page document, highlights set on page 1. -/
theorem setSelectionHighlights_single_page_witness :
    (((initialViewer.loadDocumentLayout
          (List.replicate 3 (612, 792))).setSelectionHighlights 1
        [{ x := 1, y := 2, w := 3, h := 4 }]).pages
      1).overlay.highlightRects = [{ x := 1, y := 2, w := 3, h := 4 }] :=
  (setSelectionHighlights_single_page _ 1 _).2.1 (by decide)

theorem markRendering_isRendering (p : PageWidget) :
    p.markRendering.isRendering = true := rfl

theorem markRendering_isLoaded (p : PageWidget) :
    p.markRendering.isLoaded = p.isLoaded := rfl

theorem markRendering_needsRerender (p : PageWidget) :
    p.markRendering.needsRerender = p.needsRerender := rfl

theorem foldl_markRendering_apply (l : List ℕ) (f : ℕ → PageWidget) (j : ℕ) :
    (l.foldl (fun g idx => updatePage g idx PageWidget.markRendering) f) j =
      if j ∈ l then (f j).markRendering else f j := by
  induction l generalizing f with
  | nil => simp
  | cons i t ih =>
    simp only [List.foldl_cons, ih, List.mem_cons]
    by_cases hij : j = i
    · subst hij
      by_cases ht : j ∈ t <;>
        simp [updatePage, ht, PageWidget.markRendering]
    · by_cases ht : j ∈ t <;> simp [updatePage, hij, ht]

theorem filter_after_mark (range : List ℕ) (f : ℕ → PageWidget)
    (h : ∀ i, (f i).needsRerender = false) :
    (range.filter fun idx =>
      let p := ((range.filter fun idx2 =>
          let q := f idx2
          (!q.isLoaded && !q.isRendering) || q.needsRerender).foldl
            (fun g idx2 => updatePage g idx2 PageWidget.markRendering) f) idx
      (!p.isLoaded && !p.isRendering) || p.needsRerender) = [] := by
  apply List.filter_eq_nil_iff.mpr
  intro idx hidx
  simp only [foldl_markRendering_apply]
  by_cases hmem : idx ∈ range.filter fun idx2 =>
      let q := f idx2
      (!q.isLoaded && !q.isRendering) || q.needsRerender
  · simp only [if_pos hmem]
    simp only [markRendering_isRendering, markRendering_isLoaded,
      markRendering_needsRerender, h idx, Bool.not_true, Bool.and_false,
      Bool.or_false]
    simp
  · simp only [if_neg hmem]
    intro hcontr
    exact hmem (List.mem_filter.mpr ⟨hidx, hcontr⟩)

/-- Claim C4 (amended): a second `_check_visibility` call with the same
visible range issues zero render requests, provided no page is loaded at a
stale zoom (`needs_rerender` false everywhere); pages that are merely
pending, or loaded within the zoom tolerance, are never re-requested. -/
theorem checkVisibility_idempotent_no_stale (v : DocumentViewer)
    (vis : List ℕ) (h : ∀ i, (v.pages i).needsRerender = false) :
    ((v.checkVisibility vis).1.checkVisibility vis).2 = [] := by
  cases vis with
  | nil => rfl
  | cons i0 rest =>
    simp only [DocumentViewer.checkVisibility]
    rw [filter_after_mark _ _ h]
    rfl

/-- Witness for the amended C4: a fresh two-page document, page 0 visible. -/
theorem checkVisibility_idempotent_no_stale_witness :
    (((initialViewer.loadDocumentLayout
          (List.replicate 2 (612, 792))).checkVisibility [0]).1.checkVisibility
        [0]).2 = [] :=
  checkVisibility_idempotent_no_stale _ [0] (fun _ => rfl)

/-- Counterexample to claim C8: the source regex merges a hyphen + newline
before an ASCII letter of either case, so an input where the letter is
uppercase (hence not lowercase) is still rewritten, not left unchanged. -/
theorem mergeHyphens_merges_uppercase :
    mergeHyphens ['-', '\n', 'B'] = ['B'] ∧
    ('B'.isLower = false) ∧
    mergeHyphens ['-', '\n', 'B'] ≠ ['-', '\n', 'B'] := by
  decide

/-- Claim C8 (amended): `merge_hyphens` collapses a hyphen immediately
followed by a line break and an ASCII letter of either case to that letter,
leaves the head character in place in every other configuration, and is
applied only to the text emitted by `_emit_current_selection` — the stored
character sequence of the page model is never modified. -/
theorem mergeHyphens_spec :
    (∀ c rest, isRegexAlpha c = true →
      mergeHyphens ('-' :: '\n' :: c :: rest) = c :: mergeHyphens rest) ∧
    (∀ a b c rest, (a = '-' → b = '\n' → isRegexAlpha c = false) →
      mergeHyphens (a :: b :: c :: rest) = a :: mergeHyphens (b :: c :: rest)) ∧
    (mergeHyphens [] = [] ∧ (∀ a, mergeHyphens [a] = [a]) ∧
      (∀ a b, mergeHyphens [a, b] = [a, b])) ∧
    (∀ vm : SelectionViewModel, ∀ ci,
      ((vm.updateSelection ci).1).pageModels = vm.pageModels) ∧
    (∀ vm : SelectionViewModel, ∀ p s chars ci, vm.activePage = some p →
      vm.startIdx = some s → vm.pageModels p = some chars →
      (vm.updateSelection ci).2 =
        [mergeHyphens (SelectionModel.getTextRange chars s ci)]) := by
  refine ⟨fun c rest hc => ?_, fun a b c rest hno => ?_, ⟨rfl, fun a => rfl,
    fun a b => rfl⟩, fun vm ci => ?_, fun vm p s chars ci hap hsi hpm => ?_⟩
  · simp [mergeHyphens, hc]
  · rw [mergeHyphens]
    rw [if_neg]
    rintro ⟨rfl, rfl, hc⟩
    rw [hno rfl rfl] at hc
    exact Bool.false_ne_true hc
  · unfold SelectionViewModel.updateSelection
    cases vm.startIdx <;> rfl
  · unfold SelectionViewModel.updateSelection
    rw [hsi]
    simp [SelectionViewModel.emitCurrentSelection, hap, hsi, hpm]

/-- Witness for the amended C8: merging inside "wa-\nter" and emitting a
selection over the `abcChars` model. -/
theorem mergeHyphens_spec_witness :
    mergeHyphens ('-' :: '\n' :: 't' :: ['e', 'r']) =
      't' :: mergeHyphens ['e', 'r'] ∧
    (({ pageModels := fun p => if p = 0 then some abcChars else none
        activePage := some 0, startIdx := some 0, endIdx := some 0 } :
          SelectionViewModel).updateSelection 2).2 =
      [mergeHyphens (SelectionModel.getTextRange abcChars 0 2)] :=
  ⟨mergeHyphens_spec.1 't' ['e', 'r'] (by decide),
   mergeHyphens_spec.2.2.2.2 _ 0 0 abcChars 2 rfl rfl (by simp)⟩

/-- Counterexample to claim C10: for the three-character list `a b c` and
the request `(-5, -2)` (a range entirely outside the list), the clamped stop
index `-1` is interpreted by Python slicing as counting from the end, so
`get_text_range` returns "ab" rather than the empty string the claim
specifies. -/
theorem getTextRange_negative_range_not_empty :
    SelectionModel.getTextRange abcChars (-5) (-2) = ['a', 'b'] ∧
    getTextRangeClaim abcChars (-5) (-2) = [] ∧
    SelectionModel.getTextRange abcChars (-5) (-2) ≠
      getTextRangeClaim abcChars (-5) (-2) := by
  decide

theorem pair_norm (s e : ℤ) :
    (if s > e then (e, s) else (s, e)) = (min s e, max s e) := by
  rcases le_or_lt s e with h | h
  · rw [if_neg (by omega), min_eq_left h, max_eq_right h]
  · rw [if_pos h, min_eq_right (le_of_lt h), max_eq_left (le_of_lt h)]

/-- Claim C10 (amended): `get_text_range` is total: it swaps an inverted
pair, clamps start up to 0 and end down to `charCount - 1`, and for an empty
list, or whenever the clamped end is at least `-1`, returns exactly the
concatenation over the clamped inclusive range (empty when that range is
empty).  When the clamped end is `-2` or below (both requested indices
negative), Python's negative slice index makes it return the first
`charCount + clampedEnd + 1` characters instead. -/
theorem getTextRange_total_spec (chars : List CharMetadata) (s e : ℤ) :
    (SelectionModel.getTextRange ([] : List CharMetadata) s e = []) ∧
    (-1 ≤ min ((chars.length : ℤ) - 1) (max s e) →
      SelectionModel.getTextRange chars s e = getTextRangeClaim chars s e) ∧
    (min ((chars.length : ℤ) - 1) (max s e) ≤ -2 →
      SelectionModel.getTextRange chars s e =
        (chars.take
          (((chars.length : ℤ) + min ((chars.length : ℤ) - 1) (max s e) + 1).toNat)).map
          (·.char)) := by
  refine ⟨?_, ?_, ?_⟩
  · simp only [SelectionModel.getTextRange, pySlice, List.length_nil,
      List.take_nil, List.drop_nil, List.map_nil]
  · intro hE
    simp only [SelectionModel.getTextRange, getTextRangeClaim, pySlice, pair_norm]
    rw [if_neg (show ¬ max 0 (min s e) < 0 by omega),
      if_neg (show ¬ min ((chars.length : ℤ) - 1) (max s e) + 1 < 0 by omega)]
    by_cases hSE : max 0 (min s e) ≤ min ((chars.length : ℤ) - 1) (max s e)
    · rw [if_pos hSE,
        (show (min (min ((chars.length : ℤ) - 1) (max s e) + 1)
            (chars.length : ℤ)).toNat =
          (min ((chars.length : ℤ) - 1) (max s e)).toNat + 1 by omega),
        (show (min (max 0 (min s e)) (chars.length : ℤ)).toNat =
          (max 0 (min s e)).toNat by omega)]
    · rw [if_neg hSE]
      have hdrop : (chars.take
          ((min (min ((chars.length : ℤ) - 1) (max s e) + 1)
            (chars.length : ℤ)).toNat)).drop
          ((min (max 0 (min s e)) (chars.length : ℤ)).toNat) = [] := by
        rw [List.drop_eq_nil_iff, List.length_take]
        omega
      rw [hdrop, List.map_nil]
  · intro hE
    simp only [SelectionModel.getTextRange, pySlice, pair_norm]
    rw [if_neg (show ¬ max 0 (min s e) < 0 by omega),
      if_pos (show min ((chars.length : ℤ) - 1) (max s e) + 1 < 0 by omega),
      (show (min (max 0 (min s e)) (chars.length : ℤ)).toNat = 0 by omega),
      (show (max 0 ((chars.length : ℤ) +
          (min ((chars.length : ℤ) - 1) (max s e) + 1))).toNat =
        ((chars.length : ℤ) + min ((chars.length : ℤ) - 1) (max s e) + 1).toNat
        by omega),
      List.drop_zero]

/-- Witness for the amended C10: `(1, 2)` on the three-character model takes
the in-range branch, where the code agrees with the claimed semantics. -/
theorem getTextRange_total_spec_witness :
    SelectionModel.getTextRange abcChars 1 2 = getTextRangeClaim abcChars 1 2 :=
  (getTextRange_total_spec abcChars 1 2).2.1 (by decide)

theorem abs_pyTrunc_sub_lt (q : ℚ) : |(pyTrunc q : ℚ) - q| < 1 := by
  unfold pyTrunc
  split
  · rw [abs_lt]
    exact ⟨by linarith [Int.lt_floor_add_one q], by linarith [Int.floor_le q]⟩
  · rw [abs_lt]
    exact ⟨by linarith [Int.le_ceil q], by linarith [Int.ceil_lt_add_one q]⟩

theorem pyTrunc_intCast (m : ℤ) : pyTrunc (m : ℚ) = m := by
  unfold pyTrunc
  split <;> simp

/-- Counterexample to claim C6: at `oldScroll = 100`, `cursorOffset = 50`,
`oldZoom = 100` and one-half wheel notch (`delta = 60`, giving
`newZoom = 105`), the code computes `newScroll = 107`, while the claimed
formula gives `107.5` — the computed scroll is not equal to the formula. -/
theorem handleScrollZoom_not_exact_formula :
    MainWindow.handleScrollZoom 100 50 100 60 = (105, some 107) ∧
    ((100 : ℚ) + 50) * (((105 : ℤ) : ℚ) / (100 : ℚ)) - 50 ≠ ((107 : ℤ) : ℚ) := by
  constructor
  · unfold MainWindow.handleScrollZoom pyTrunc ZoomViewModel.MIN_ZOOM
      ZoomViewModel.MAX_ZOOM
    norm_num
  · norm_num

/-- Claim C6 (amended): for positive `oldZoom`, cursor-anchored zoom
computes `newScroll` as the integer truncation of
`(oldScroll + cursorOffset) * (newZoom / oldZoom) - cursorOffset` (within 1
of the exact value, and equal to it whenever the value is an integer); in
particular `oldScroll = 100`, `cursorOffset = 50`, `oldZoom = 100`,
`delta = 120` gives `newZoom = 110` and `newScroll = 115` exactly. -/
theorem handleScrollZoom_anchored_trunc :
    (∀ oldScroll cursorY oldZoom delta : ℤ, 0 < oldZoom →
      ∃ ns : ℤ,
        (MainWindow.handleScrollZoom oldScroll cursorY oldZoom delta).2 =
          some ns ∧
        |(ns : ℚ) - (((oldScroll : ℚ) + (cursorY : ℚ)) *
            (((MainWindow.handleScrollZoom oldScroll cursorY oldZoom
                delta).1 : ℚ) / (oldZoom : ℚ)) - (cursorY : ℚ))| < 1 ∧
        (∀ m : ℤ,
          ((oldScroll : ℚ) + (cursorY : ℚ)) *
              (((MainWindow.handleScrollZoom oldScroll cursorY oldZoom
                  delta).1 : ℚ) / (oldZoom : ℚ)) - (cursorY : ℚ) = (m : ℚ) →
          ns = m)) ∧
    MainWindow.handleScrollZoom 100 50 100 120 = (110, some 115) := by
  constructor
  · intro oldScroll cursorY oldZoom delta h
    unfold MainWindow.handleScrollZoom
    rw [if_pos h]
    dsimp only
    have hEF : (((oldScroll + cursorY : ℤ) : ℚ)) = (oldScroll : ℚ) + (cursorY : ℚ) := by
      push_cast
      ring
    rw [hEF]
    exact ⟨_, rfl, abs_pyTrunc_sub_lt _,
      fun m hm => by rw [hm, pyTrunc_intCast]⟩
  · unfold MainWindow.handleScrollZoom pyTrunc ZoomViewModel.MIN_ZOOM
      ZoomViewModel.MAX_ZOOM
    norm_num

/-- Witness for the amended C6 at the claim's concrete inputs. -/
theorem handleScrollZoom_anchored_trunc_witness :
    ∃ ns : ℤ,
      (MainWindow.handleScrollZoom 100 50 100 120).2 = some ns ∧
      |(ns : ℚ) - (((100 : ℚ) + (50 : ℚ)) *
          (((MainWindow.handleScrollZoom 100 50 100 120).1 : ℚ) /
            ((100 : ℤ) : ℚ)) - (50 : ℚ))| < 1 ∧
      (∀ m : ℤ,
        ((100 : ℚ) + (50 : ℚ)) *
            (((MainWindow.handleScrollZoom 100 50 100 120).1 : ℚ) /
              ((100 : ℤ) : ℚ)) - (50 : ℚ) = (m : ℚ) →
        ns = m) :=
  handleScrollZoom_anchored_trunc.1 100 50 100 120 (by decide)

theorem expandLeft_le (chars : List CharMetadata) (k : ℕ) :
    expandLeft chars k ≤ k := by
  induction k with
  | zero => exact le_refl 0
  | succ s ih =>
    rw [expandLeft]
    split
    · exact le_refl _
    · exact le_trans ih (Nat.le_succ s)

theorem expandLeft_linked (chars : List CharMetadata) (k : ℕ) :
    ∀ j, expandLeft chars k ≤ j → j < k → leftLinked chars j := by
  induction k with
  | zero => omega
  | succ s ih =>
    intro j h1 h2
    rw [expandLeft] at h1
    split at h1
    · omega
    · rcases Nat.lt_succ_iff_lt_or_eq.mp h2 with h3 | h3
      · exact ih j h1 h3
      · subst h3
        rename_i hc
        push_neg at hc
        obtain ⟨ha, hb, hv⟩ := hc
        cases hw : isWordChar ((chars.getD j charDefault).char) with
        | false => exact absurd hw ha
        | true => exact ⟨hw, hb, hv⟩

theorem expandLeft_maximal (chars : List CharMetadata) (k : ℕ) :
    expandLeft chars k = 0 ∨ ¬ leftLinked chars (expandLeft chars k - 1) := by
  induction k with
  | zero => exact Or.inl rfl
  | succ s ih =>
    rw [expandLeft]
    split
    · right
      rename_i hc
      simp only [Nat.add_sub_cancel]
      rintro ⟨h1, h2, h3⟩
      rcases hc with h | h | h
      · rw [h1] at h
        exact absurd h (by decide)
      · exact absurd h2 (not_le.mpr h)
      · exact absurd h3 (not_le.mpr h)
    · exact ih

theorem expandRight_ge (chars : List CharMetadata) (e : ℕ) :
    e ≤ expandRight chars e := by
  refine expandRight.induct chars (fun e => e ≤ expandRight chars e)
    ?_ ?_ ?_ e
  · intro x h1 h2
    rw [expandRight, if_pos h1, if_pos h2]
  · intro x h1 h2 ih
    rw [expandRight, if_pos h1, if_neg h2]
    omega
  · intro x h1
    rw [expandRight, if_neg h1]

theorem expandRight_lt_length (chars : List CharMetadata) (e : ℕ)
    (h : e < chars.length) : expandRight chars e < chars.length := by
  refine expandRight.induct chars
    (fun e => e < chars.length → expandRight chars e < chars.length)
    ?_ ?_ ?_ e h
  · intro x h1 h2 hx
    rw [expandRight, if_pos h1, if_pos h2]
    exact hx
  · intro x h1 h2 ih _
    rw [expandRight, if_pos h1, if_neg h2]
    exact ih h1
  · intro x h1 hx
    rw [expandRight, if_neg h1]
    exact hx

theorem expandRight_linked (chars : List CharMetadata) (e : ℕ) :
    ∀ j, e ≤ j → j < expandRight chars e → rightLinked chars j := by
  refine expandRight.induct chars
    (fun e => ∀ j, e ≤ j → j < expandRight chars e → rightLinked chars j)
    ?_ ?_ ?_ e
  · intro x h1 h2 j hj1 hj2
    rw [expandRight, if_pos h1, if_pos h2] at hj2
    omega
  · intro x h1 h2 ih j hj1 hj2
    rw [expandRight, if_pos h1, if_neg h2] at hj2
    rcases Nat.lt_or_ge j (x + 1) with h3 | h3
    · have hjx : j = x := by omega
      subst hjx
      push_neg at h2
      obtain ⟨ha, hb, hv⟩ := h2
      cases hw : isWordChar ((chars.getD (j + 1) charDefault).char) with
      | false => exact absurd hw ha
      | true => exact ⟨hw, hb, hv⟩
    · exact ih j h3 hj2
  · intro x h1 j hj1 hj2
    rw [expandRight, if_neg h1] at hj2
    omega

theorem expandRight_maximal (chars : List CharMetadata) (e : ℕ)
    (h : e < chars.length) :
    expandRight chars e = chars.length - 1 ∨
      ¬ rightLinked chars (expandRight chars e) := by
  refine expandRight.induct chars
    (fun e => e < chars.length →
      expandRight chars e = chars.length - 1 ∨
        ¬ rightLinked chars (expandRight chars e))
    ?_ ?_ ?_ e h
  · intro x h1 h2 _
    rw [expandRight, if_pos h1, if_pos h2]
    right
    rintro ⟨ha, hb, hv⟩
    rcases h2 with hcase | hcase | hcase
    · rw [ha] at hcase
      exact absurd hcase (by decide)
    · exact absurd hb (not_le.mpr hcase)
    · exact absurd hv (not_le.mpr hcase)
  · intro x h1 h2 ih _
    rw [expandRight, if_pos h1, if_neg h2]
    exact ih h1
  · intro x h1 hx
    rw [expandRight, if_neg h1]
    left
    omega

/-- Claim C7: `select_word_at` on a word-character glyph selects exactly the
range produced by expanding left and right; every boundary crossed inside
the selection satisfies the word-character / space-threshold (4) /
line-threshold (5) conditions, and each end stops either at the text
boundary or at a boundary where the conditions fail.  In particular, on the
"cat dog" glyph sequence with a 6-unit gap, invoking it at a glyph of "dog"
selects exactly the three glyphs of "dog" and emits the text "dog". -/
theorem selectWordAt_word_expansion :
    (∀ (vm : SelectionViewModel) (p : ℕ) (chars : List CharMetadata) (k : ℕ),
      vm.pageModels p = some chars → k < chars.length →
      isWordChar ((chars.getD k charDefault).char) = true →
      ((vm.selectWordAt p (k : ℤ)).1.activePage = some p ∧
       (vm.selectWordAt p (k : ℤ)).1.startIdx =
         some ((expandLeft chars k : ℕ) : ℤ) ∧
       (vm.selectWordAt p (k : ℤ)).1.endIdx =
         some ((expandRight chars k : ℕ) : ℤ) ∧
       expandLeft chars k ≤ k ∧ k ≤ expandRight chars k ∧
       expandRight chars k < chars.length ∧
       (∀ j, expandLeft chars k ≤ j → j < k → leftLinked chars j) ∧
       (∀ j, k ≤ j → j < expandRight chars k → rightLinked chars j) ∧
       (expandLeft chars k = 0 ∨
         ¬ leftLinked chars (expandLeft chars k - 1)) ∧
       (expandRight chars k = chars.length - 1 ∨
         ¬ rightLinked chars (expandRight chars k)))) ∧
    ((catDogVM.selectWordAt 0 4).1.startIdx = some 3 ∧
     (catDogVM.selectWordAt 0 4).1.endIdx = some 5 ∧
     (catDogVM.selectWordAt 0 4).2 = [['d', 'o', 'g']]) := by
  have hgen : ∀ (vm : SelectionViewModel) (p : ℕ) (chars : List CharMetadata)
      (k : ℕ), vm.pageModels p = some chars → k < chars.length →
      isWordChar ((chars.getD k charDefault).char) = true →
      vm.selectWordAt p (k : ℤ) =
        (vm.startSelection p ((expandLeft chars k : ℕ) : ℤ)).updateSelection
          ((expandRight chars k : ℕ) : ℤ) := by
    intro vm p chars k hpm hk hw
    unfold SelectionViewModel.selectWordAt
    rw [hpm]
    dsimp only
    rw [if_pos ⟨Int.natCast_nonneg k, by exact_mod_cast hk⟩]
    simp only [Int.toNat_natCast]
    rw [if_neg (by intro hc; rw [hw] at hc; exact absurd hc (by decide))]
  constructor
  · intro vm p chars k hpm hk hw
    rw [hgen vm p chars k hpm hk hw]
    refine ⟨rfl, rfl, rfl, expandLeft_le chars k, expandRight_ge chars k,
      expandRight_lt_length chars k hk, expandLeft_linked chars k,
      expandRight_linked chars k, expandLeft_maximal chars k,
      expandRight_maximal chars k hk⟩
  · have hL : expandLeft catDogChars 4 = 3 := by
      rw [expandLeft, if_neg, expandLeft, if_pos]
      · right
        left
        norm_num [catDogChars, RectQ.left, RectQ.right, SPACE_THRESHOLD]
      · push_neg
        refine ⟨by decide, ?_, ?_⟩ <;>
          norm_num [catDogChars, RectQ.left, RectQ.right, RectQ.top,
            SPACE_THRESHOLD, LINE_THRESHOLD, charDefault]
    have hR : expandRight catDogChars 4 = 5 := by
      rw [expandRight, if_pos (by decide), if_neg, expandRight,
        if_neg (by decide)]
      push_neg
      refine ⟨by decide, ?_, ?_⟩ <;>
        norm_num [catDogChars, RectQ.left, RectQ.right, RectQ.top,
          SPACE_THRESHOLD, LINE_THRESHOLD, charDefault]
    have hstep := hgen catDogVM 0 catDogChars 4 rfl (by decide) (by decide)
    rw [hL, hR] at hstep
    have h4 : ((4 : ℕ) : ℤ) = (4 : ℤ) := rfl
    rw [h4] at hstep
    rw [hstep]
    exact ⟨rfl, rfl, by decide⟩

/-- Witness for C7 at the "cat dog" model, page 0, glyph index 4. -/
theorem selectWordAt_word_expansion_witness :
    (catDogVM.selectWordAt 0 ((4 : ℕ) : ℤ)).1.activePage = some 0 ∧
    (catDogVM.selectWordAt 0 ((4 : ℕ) : ℤ)).1.startIdx =
      some ((expandLeft catDogChars 4 : ℕ) : ℤ) ∧
    (catDogVM.selectWordAt 0 ((4 : ℕ) : ℤ)).1.endIdx =
      some ((expandRight catDogChars 4 : ℕ) : ℤ) ∧
    expandLeft catDogChars 4 ≤ 4 ∧ 4 ≤ expandRight catDogChars 4 ∧
    expandRight catDogChars 4 < catDogChars.length ∧
    (∀ j, expandLeft catDogChars 4 ≤ j → j < 4 → leftLinked catDogChars j) ∧
    (∀ j, 4 ≤ j → j < expandRight catDogChars 4 →
      rightLinked catDogChars j) ∧
    (expandLeft catDogChars 4 = 0 ∨
      ¬ leftLinked catDogChars (expandLeft catDogChars 4 - 1)) ∧
    (expandRight catDogChars 4 = catDogChars.length - 1 ∨
      ¬ rightLinked catDogChars (expandRight catDogChars 4)) :=
  selectWordAt_word_expansion.1 catDogVM 0 catDogChars 4 rfl (by decide)
    (by decide)

theorem evictLoop_of_le (total : ℕ) (lp : List ℕ) (pgs : ℕ → PageWidget)
    (h : lp.length ≤ 12) : evictLoop total lp pgs = (lp, pgs) := by
  cases lp with
  | nil => rfl
  | cons i rest =>
    simp only [evictLoop]
    rw [if_neg]
    simp only [List.length_cons] at h
    simp only [DocumentViewer.MAX_CACHED_PAGES]
    omega

theorem evictLoop_pop (total i : ℕ) (rest : List ℕ) (pgs : ℕ → PageWidget)
    (h : 12 < rest.length + 1) :
    evictLoop total (i :: rest) pgs =
      evictLoop total rest
        (if i < total then updatePage pgs i PageWidget.unloadImage else pgs) := by
  simp only [evictLoop]
  rw [if_pos]
  simpa only [DocumentViewer.MAX_CACHED_PAGES] using h

theorem loadSequentially_spec (sizes : List (ℕ × ℕ)) :
    ∀ l : List ℕ, l.Sorted (· < ·) → (∀ i ∈ l, i < sizes.length) →
    (loadSequentially (initialViewer.loadDocumentLayout sizes) l).totalPages =
      sizes.length ∧
    (loadSequentially (initialViewer.loadDocumentLayout sizes) l).loadedPages =
      l.drop (l.length - 12) ∧
    (∀ j, (((loadSequentially (initialViewer.loadDocumentLayout sizes)
        l).pages j).isLoaded = true ↔ j ∈ l.drop (l.length - 12))) := by
  intro l
  induction l using List.reverseRecOn with
  | nil =>
    intro _ _
    refine ⟨rfl, rfl, fun j => ?_⟩
    simp [loadSequentially, DocumentViewer.loadDocumentLayout, PageWidget.init]
  | append_singleton l i ih =>
    intro hsort hbound
    have hps := List.pairwise_append.mp hsort
    have hsl : l.Sorted (· < ·) := hps.1
    have hlt : ∀ a ∈ l, a < i := fun a ha => hps.2.2 a ha i (by simp)
    have hbl : ∀ a ∈ l, a < sizes.length := fun a ha =>
      hbound a (List.mem_append_left _ ha)
    have hiN : i < sizes.length := hbound i (by simp)
    obtain ⟨ihT, ihL, ihP⟩ := ih hsl hbl
    have hfold : loadSequentially (initialViewer.loadDocumentLayout sizes)
        (l ++ [i]) =
        (loadSequentially (initialViewer.loadDocumentLayout sizes)
          l).updatePageImage i 100 := by
      simp [loadSequentially]
    set w := loadSequentially (initialViewer.loadDocumentLayout sizes) l
      with hw
    rw [hfold]
    simp only [DocumentViewer.updatePageImage]
    rw [if_pos (show i < w.totalPages by rw [ihT]; exact hiN)]
    rw [if_neg (show i ∉ w.loadedPages by
      rw [ihL]
      intro hmem
      exact absurd (hlt i (List.mem_of_mem_drop hmem)) (lt_irrefl i))]
    simp only [DocumentViewer.evictOldPages]
    rw [ihL]
    by_cases hlen : l.length ≤ 11
    · have hd0 : l.drop (l.length - 12) = l := by
        rw [(show l.length - 12 = 0 by omega), List.drop_zero]
      simp only [hd0] at ihP ⊢
      rw [evictLoop_of_le _ _ _ (by simp only [List.length_append,
        List.length_cons, List.length_nil]; omega)]
      refine ⟨ihT, ?_, ?_⟩
      · rw [(show (l ++ [i]).length - 12 = 0 by
          simp only [List.length_append, List.length_cons, List.length_nil]
          omega), List.drop_zero]
      · intro j
        rw [(show (l ++ [i]).length - 12 = 0 by
          simp only [List.length_append, List.length_cons, List.length_nil]
          omega), List.drop_zero]
        by_cases hji : j = i
        · subst hji
          simp [updatePage, PageWidget.setImage]
        · simp only [updatePage, if_neg hji]
          rw [ihP j]
          simp [List.mem_append, hji]
    · have hlt12 : l.length - 12 < l.length := by omega
      have hdecomp : l.drop (l.length - 12) =
          l[l.length - 12] :: l.drop (l.length - 11) := by
        rw [List.drop_eq_getElem_cons hlt12,
          (show l.length - 12 + 1 = l.length - 11 by omega)]
      have hxl : l[l.length - 12] ∈ l := List.getElem_mem hlt12
      have hxi : l[l.length - 12] ≠ i := fun hcontr =>
        absurd (hcontr ▸ hlt _ hxl) (lt_irrefl i)
      have hpd : (l.drop (l.length - 12)).Pairwise (· < ·) :=
        hsl.sublist (List.drop_sublist _ _)
      rw [hdecomp] at hpd
      have hxlt : ∀ y ∈ l.drop (l.length - 11), l[l.length - 12] < y :=
        (List.pairwise_cons.mp hpd).1
      have hxnot : l[l.length - 12] ∉ l.drop (l.length - 11) := fun hmem =>
        absurd (hxlt _ hmem) (lt_irrefl _)
      rw [hdecomp, List.cons_append]
      rw [evictLoop_pop _ _ _ _ (by
        simp only [List.length_append, List.length_drop, List.length_cons,
          List.length_nil]
        omega)]
      rw [if_pos (show l[l.length - 12] < w.totalPages by
        rw [ihT]; exact hbl _ hxl)]
      rw [evictLoop_of_le _ _ _ (by
        simp only [List.length_append, List.length_drop, List.length_cons,
          List.length_nil]
        omega)]
      have hlen2 : (l ++ [i]).length - 12 = l.length - 11 := by
        simp only [List.length_append, List.length_cons, List.length_nil]
        omega
      refine ⟨ihT, ?_, ?_⟩
      · rw [hlen2, List.drop_append_of_le_length (by omega)]
      · intro j
        rw [hlen2, List.drop_append_of_le_length (by omega)]
        by_cases hjx : j = l[l.length - 12]
        · subst hjx
          simp [updatePage, PageWidget.unloadImage, List.mem_append, hxnot,
            hxi]
        · by_cases hji : j = i
          · subst hji
            simp [updatePage, hjx, PageWidget.setImage, List.mem_append]
          · simp only [updatePage, if_neg hjx, if_neg hji]
            rw [ihP j, hdecomp]
            simp [List.mem_cons, List.mem_append, hjx, hji]

/-- Claim C2: with cache capacity 12, applying `update_page_image` along a
strictly increasing list of in-range page indices leaves exactly the 12 most
recently loaded pages resident (the `OrderedDict` holds exactly the final
12 indices in first-load order, so the evicted pages are exactly the
earliest-loaded ones, in order of first load), a page is loaded iff it is
among those, and after every prefix of the calls at most 12 pages are in the
cache.  Instantiated at pages 0..14 of a 15-page document this leaves pages
3..14 loaded and 0..2 unloaded. -/
theorem updatePageImage_lru_eviction (sizes : List (ℕ × ℕ)) (l : List ℕ)
    (hsort : l.Sorted (· < ·)) (hbound : ∀ i ∈ l, i < sizes.length) :
    (loadSequentially (initialViewer.loadDocumentLayout sizes) l).loadedPages =
      l.drop (l.length - 12) ∧
    (∀ j, (((loadSequentially (initialViewer.loadDocumentLayout sizes)
        l).pages j).isLoaded = true ↔ j ∈ l.drop (l.length - 12))) ∧
    (∀ k, (loadSequentially (initialViewer.loadDocumentLayout sizes)
        (l.take k)).loadedPages.length ≤ 12) := by
  obtain ⟨-, h2, h3⟩ := loadSequentially_spec sizes l hsort hbound
  refine ⟨h2, h3, fun k => ?_⟩
  have hst : (l.take k).Sorted (· < ·) := hsort.sublist (List.take_sublist k l)
  have hbt : ∀ i ∈ l.take k, i < sizes.length := fun i hi =>
    hbound i (List.mem_of_mem_take hi)
  obtain ⟨-, ht2, -⟩ := loadSequentially_spec sizes (l.take k) hst hbt
  rw [ht2, List.length_drop]
  omega

/-- Witness for C2: loading pages 0..14 of a 15-page document. -/
theorem updatePageImage_lru_eviction_witness :
    (loadSequentially (initialViewer.loadDocumentLayout
        (List.replicate 15 (612, 792))) (List.range 15)).loadedPages =
      (List.range 15).drop ((List.range 15).length - 12) ∧
    (∀ j, (((loadSequentially (initialViewer.loadDocumentLayout
        (List.replicate 15 (612, 792))) (List.range 15)).pages j).isLoaded =
        true ↔ j ∈ (List.range 15).drop ((List.range 15).length - 12))) ∧
    (∀ k, (loadSequentially (initialViewer.loadDocumentLayout
        (List.replicate 15 (612, 792)))
        ((List.range 15).take k)).loadedPages.length ≤ 12) :=
  updatePageImage_lru_eviction _ (List.range 15)
    (List.sorted_lt_range 15)
    (fun i hi => by
      rw [List.length_replicate]
      exact List.mem_range.mp hi)

end Linguis
